import Mathlib

/-!
# Verification of the pass-clean row deduplicator

Shallow embedding of the core logic of src/index.js: the streaming dedup
fold (run's data handler), key computation (usernamePart / sitePart /
uniqueKey), timestamp policy (getTimestamp and the strict-greater
comparison with its NaN semantics), and the URL normalizer.

Modelling conventions:
* A CSV row field is Option String: none models an absent column
  (undefined in JS), some s a present string value (possibly empty).
* JS truthiness of a string-valued expression: undefined, null and the
  empty string are falsy; the falsy predicate and jsOr model the
  JavaScript logical-or fallbacks the source uses (row.url || row.name,
  row.modifyTime || row.createTime, row.username || a string literal).
* A JS numeric timestamp is Option Int: some n is an ordinary number of
  milliseconds, none is the NaN produced by new Date on an unparseable
  string; every strict comparison involving none is false, as in JS.
* The Date constructor and the WHATWG URL parser are external runtime
  facilities, not code of this repository; they enter as the fields of a
  JSRuntime parameter (parseDate returning none for NaN, parseURL
  returning the protocol - colon included, as u.protocol in JS - and the
  host on success, none when the constructor throws).
* The JS Map is modelled as an association list in insertion order;
  Map.set replaces in place when the key is present and appends
  otherwise, which setStore mirrors.
-/

namespace PassClean

/-- A CSV row as produced by the csv-parser collaborator: the named
columns the core reads, plus the remaining columns passed through. -/
structure Row where
  username : Option String
  url : Option String
  name : Option String
  password : Option String
  modifyTime : Option String
  createTime : Option String
  extra : List (String × String)
deriving DecidableEq

/-- The boolean configuration resolved by the CLI glue (only the four
options the core logic reads; overwrite/log options never reach it). -/
structure Config where
  normalizeUrl : Bool
  lowercaseUsernames : Bool
  ignoreEmptyPasswords : Bool
  requireModifyTime : Bool
deriving DecidableEq

/-- External JS runtime facilities the source calls: new Date(s).getTime()
(none models NaN) and new URL(v) (some (protocol, host) on success, the
protocol keeping its trailing colon as in JS; none when it throws). -/
structure JSRuntime where
  parseDate : String → Option Int
  parseURL : String → Option (String × String)

/-- The JS String.prototype.trim builtin, modelled on the character list:
drop whitespace from both ends. -/
def trimList (l : List Char) : List Char :=
  ((l.dropWhile Char.isWhitespace).reverse.dropWhile Char.isWhitespace).reverse

/-- The JS String.prototype.trim builtin. -/
def jsTrim (s : String) : String :=
  { data := trimList s.data }

/-- The JS String.prototype.toLowerCase builtin restricted to ASCII (the
only case the fixtures exercise): lowercase the latin capitals. -/
def lowerChar (c : Char) : Char :=
  if 65 ≤ c.toNat && c.toNat ≤ 90 then Char.ofNat (c.toNat + 32) else c

/-- The JS String.prototype.toLowerCase builtin (ASCII model). -/
def jsToLower (s : String) : String :=
  { data := s.data.map lowerChar }

/-- One character list is a prefix of another. -/
def isPrefixList : List Char → List Char → Bool
  | [], _ => true
  | _ :: _, [] => false
  | c :: cs, d :: ds => c = d && isPrefixList cs ds

/-- The JS String.prototype.startsWith builtin. -/
def jsStartsWith (s p : String) : Bool :=
  isPrefixList p.data s.data

/-- JS string truthiness on an optional field: undefined and the empty
string are falsy. -/
def falsy : Option String → Bool
  | none => true
  | some s => s = ""

/-- The JS logical-or fallback a || b on optional string values: yields b
when a is falsy. -/
def jsOr (a b : Option String) : Option String :=
  if falsy a then b else a

/-- The JS pattern (x || str): the string value of x, or str when x is
falsy. -/
def jsOrStr (a : Option String) (d : String) : String :=
  match jsOr a (some d) with
  | none => d
  | some s => s

/-- getTimestamp from src/index.js lines 128-131: falsy input gives 0,
otherwise the Date constructor parses the string (none models NaN). -/
def getTimestamp (rt : JSRuntime) (dateString : Option String) : Option Int :=
  if falsy dateString then some 0
  else rt.parseDate (jsOrStr dateString "")

/-- The strict numeric comparison newDate > existingDate of src/index.js
line 97, with JS NaN semantics: any comparison against NaN is false. -/
def tsGt : Option Int → Option Int → Bool
  | some a, some b => decide (b < a)
  | _, _ => false

/-- The comparison timestamp of a row, src/index.js lines 93-94:
getTimestamp(row.modifyTime || row.createTime). -/
def rowTs (rt : JSRuntime) (row : Row) : Option Int :=
  getTimestamp rt (jsOr row.modifyTime row.createTime)

/-- The value handed to the URL parser, src/index.js line 137: prepend
https:// unless the value already starts with http. -/
def prepended (s : String) : String :=
  if jsStartsWith s "http" then s else "https://" ++ s

/-- normalizeUrl from src/index.js lines 134-143: falsy input gives the
empty string; otherwise parse (after prepending a scheme when needed) and
return protocol//host, falling back to the trimmed lowercased raw value
when the URL constructor throws. -/
def normalizeUrl (rt : JSRuntime) (value : Option String) : String :=
  if falsy value then ""
  else
    let raw := jsOrStr value ""
    match rt.parseURL (prepended raw) with
    | some pu => pu.1 ++ "//" ++ pu.2
    | none => jsToLower (jsTrim raw)

/-- usernamePart, src/index.js lines 76-78: (row.username || "").trim(),
lowercased when the option is on. -/
def usernamePart (cfg : Config) (row : Row) : String :=
  if cfg.lowercaseUsernames then jsToLower (jsTrim (jsOrStr row.username ""))
  else jsTrim (jsOrStr row.username "")

/-- sitePart, src/index.js lines 79-81: normalizeUrl(row.url || row.name)
when the option is on, (row.url || row.name || "").trim() otherwise. -/
def sitePart (cfg : Config) (rt : JSRuntime) (row : Row) : String :=
  if cfg.normalizeUrl then normalizeUrl rt (jsOr row.url row.name)
  else jsTrim (jsOrStr (jsOr row.url row.name) "")

/-- uniqueKey, src/index.js line 82. -/
def uniqueKey (cfg : Config) (rt : JSRuntime) (row : Row) : String :=
  usernamePart cfg row ++ "|" ++ sitePart cfg rt row

/-- The empty-password test of src/index.js lines 69-70: password absent
or blank after trimming. -/
def emptyPassword (row : Row) : Bool :=
  (match row.password with
   | none => ""
   | some s => jsTrim s) = ""

/-- A row survives both early-return filters of the data handler. -/
def passesFilters (cfg : Config) (row : Row) : Bool :=
  !(cfg.ignoreEmptyPasswords && emptyPassword row) &&
  !(cfg.requireModifyTime && falsy row.modifyTime)

/-- The RecordStore: a JS Map from AccountKey to Row, modelled as an
association list in insertion order. -/
abbrev Store := List (String × Row)

/-- Map.get / Map.has combined: the row stored under a key, if any. -/
def lookupStore (s : Store) (k : String) : Option Row :=
  match s with
  | [] => none
  | (k2, r) :: rest => if k2 = k then some r else lookupStore rest k

/-- Map.set: replace in place when the key is present, append otherwise
(JS Map iteration order keeps the first-insertion position). -/
def setStore (s : Store) (k : String) (r : Row) : Store :=
  match s with
  | [] => [(k, r)]
  | (k2, r2) :: rest => if k2 = k then (k2, r) :: rest else (k2, r2) :: setStore rest k r

/-- The mutable state of one run: the RecordStore and duplicatesCount. -/
structure State where
  store : Store
  dups : Nat
deriving DecidableEq

/-- The state at the start of a run. -/
def initState : State where
  store := []
  dups := 0

/-- The keyed part of the data handler, src/index.js lines 82-103: look
the key up, count a duplicate and replace only when strictly newer, or
insert the first-seen row as-is. -/
def stepKeyed (cfg : Config) (rt : JSRuntime) (st : State) (row : Row) : State :=
  let key := uniqueKey cfg rt row
  match lookupStore st.store key with
  | some existingRow =>
    let existingDate := rowTs rt existingRow
    let newDate := rowTs rt row
    if tsGt newDate existingDate then
      { store := setStore st.store key row, dups := st.dups + 1 }
    else
      { store := st.store, dups := st.dups + 1 }
  | none => { store := setStore st.store key row, dups := st.dups }

/-- One data event of src/index.js lines 67-103: the two early-return
filters, then the keyed merge decision. -/
def step (cfg : Config) (rt : JSRuntime) (st : State) (row : Row) : State :=
  if cfg.ignoreEmptyPasswords && emptyPassword row then st
  else if cfg.requireModifyTime && falsy row.modifyTime then st
  else stepKeyed cfg rt st row

/-- The whole run over the row stream: fold the data handler over the
rows in file order, starting from the empty store. -/
def processRows (cfg : Config) (rt : JSRuntime) (rows : List Row) : State :=
  rows.foldl (step cfg rt) initState

/-- The end handler, src/index.js line 107: the store values in iteration
order become the output sequence. -/
def processOutput (cfg : Config) (rt : JSRuntime) (rows : List Row) : List Row :=
  ((processRows cfg rt rows).store).map Prod.snd

/-- The duplicate count reported at the end of the run. -/
def duplicateCount (cfg : Config) (rt : JSRuntime) (rows : List Row) : Nat :=
  (processRows cfg rt rows).dups

/-- Insert a key at the end unless already present: the shape the key
sequence of the store takes as rows are consumed. -/
def insertKey (ks : List String) (k : String) : List String :=
  if k ∈ ks then ks else ks ++ [k]

/-- The keys of the store in first-insertion order, computed directly
from the row stream. -/
def firstKeys (cfg : Config) (rt : JSRuntime) (rows : List Row) : List String :=
  rows.foldl
    (fun ks r => if passesFilters cfg r then insertKey ks (uniqueKey cfg rt r) else ks) []

/-- Modelled from the spec: the comparison timestamp with the nullish
fallback the spec words state, timestamp(row.modifyTime ?? row.createTime)
- the fallback fires only when modifyTime is absent, not when empty. The
repository code itself is present (src/index.js lines 93-94) and uses the
falsy fallback; this definition exists to compare the spec sentence
against it. -/
def rowTsSpec (rt : JSRuntime) (row : Row) : Option Int :=
  getTimestamp rt (match row.modifyTime with
    | none => row.createTime
    | some s => some s)

/-- Modelled from the spec: the site value with the nullish fallbacks the
spec words state, row.url ?? row.name ?? "". The repository code itself is
present (src/index.js lines 79-81) and uses the falsy fallback; this
definition exists to compare the spec sentence against it. -/
def siteValueSpec (row : Row) : String :=
  match row.url with
  | some s => s
  | none =>
    match row.name with
    | some s => s
    | none => ""

/-! ## Helper lemmas about the store and the step function -/

theorem step_eq (cfg : Config) (rt : JSRuntime) (st : State) (row : Row) :
    step cfg rt st row = if passesFilters cfg row then stepKeyed cfg rt st row else st := by
  unfold step passesFilters
  cases h1 : cfg.ignoreEmptyPasswords && emptyPassword row <;>
    cases h2 : cfg.requireModifyTime && falsy row.modifyTime <;> simp [h1, h2]

theorem lookupStore_eq_none_iff (s : Store) (k : String) :
    lookupStore s k = none ↔ k ∉ s.map Prod.fst := by
  induction s with
  | nil => simp [lookupStore]
  | cons p rest ih =>
    obtain ⟨k2, r⟩ := p
    by_cases h : k2 = k
    · subst h; simp [lookupStore]
    · simp [lookupStore, h, ih, Ne.symm h]

theorem lookupStore_mem_of_some {s : Store} {k : String} {ex : Row}
    (h : lookupStore s k = some ex) : k ∈ s.map Prod.fst := by
  by_contra hmem
  rw [← lookupStore_eq_none_iff] at hmem
  rw [h] at hmem
  exact Option.noConfusion hmem

theorem setStore_of_lookup_none {s : Store} {k : String} (r : Row)
    (h : lookupStore s k = none) : setStore s k r = s ++ [(k, r)] := by
  induction s with
  | nil => rfl
  | cons p rest ih =>
    obtain ⟨k2, r2⟩ := p
    by_cases hk : k2 = k
    · rw [lookupStore, if_pos hk] at h
      exact Option.noConfusion h
    · rw [lookupStore, if_neg hk] at h
      simp [setStore, hk, ih h]

theorem map_fst_setStore_of_some {s : Store} {k : String} {ex : Row} (r : Row)
    (h : lookupStore s k = some ex) : (setStore s k r).map Prod.fst = s.map Prod.fst := by
  induction s with
  | nil => exact Option.noConfusion h
  | cons p rest ih =>
    obtain ⟨k2, r2⟩ := p
    by_cases hk : k2 = k
    · simp [setStore, hk]
    · rw [lookupStore, if_neg hk] at h
      simp [setStore, hk, ih h]

theorem mem_setStore {s : Store} {k : String} {r : Row} {p : String × Row}
    (h : p ∈ setStore s k r) : p = (k, r) ∨ p ∈ s := by
  induction s with
  | nil => simp [setStore] at h; simp [h]
  | cons q rest ih =>
    obtain ⟨k2, r2⟩ := q
    by_cases hk : k2 = k
    · subst hk
      simp [setStore] at h
      rcases h with h | h
      · exact Or.inl (by simp [h])
      · exact Or.inr (by simp [h])
    · simp [setStore, hk] at h
      rcases h with h | h
      · exact Or.inr (by simp [h])
      · rcases ih h with h2 | h2
        · exact Or.inl h2
        · exact Or.inr (by simp [h2])

theorem lookupStore_setStore_self (s : Store) (k : String) (r : Row) :
    lookupStore (setStore s k r) k = some r := by
  induction s with
  | nil => simp [setStore, lookupStore]
  | cons p rest ih =>
    obtain ⟨k2, r2⟩ := p
    by_cases hk : k2 = k
    · simp [setStore, hk, lookupStore]
    · simp [setStore, hk, lookupStore, ih]

theorem lookupStore_append_none {s1 : Store} {k : String}
    (h : lookupStore s1 k = none) (s2 : Store) :
    lookupStore (s1 ++ s2) k = lookupStore s2 k := by
  induction s1 with
  | nil => rfl
  | cons p rest ih =>
    obtain ⟨k2, r2⟩ := p
    by_cases hk : k2 = k
    · rw [lookupStore, if_pos hk] at h
      exact Option.noConfusion h
    · rw [lookupStore, if_neg hk] at h
      simp [lookupStore, hk, ih h]

theorem step_store_fst (cfg : Config) (rt : JSRuntime) (st : State) (row : Row) :
    (step cfg rt st row).store.map Prod.fst =
      if passesFilters cfg row then insertKey (st.store.map Prod.fst) (uniqueKey cfg rt row)
      else st.store.map Prod.fst := by
  rw [step_eq]
  by_cases hp : passesFilters cfg row
  · rw [if_pos hp, if_pos hp]
    simp only [stepKeyed]
    cases hl : lookupStore st.store (uniqueKey cfg rt row) with
    | none =>
      simp only [hl, setStore_of_lookup_none row hl]
      have hmem : uniqueKey cfg rt row ∉ st.store.map Prod.fst :=
        (lookupStore_eq_none_iff st.store (uniqueKey cfg rt row)).mp hl
      simp [insertKey, hmem]
    | some ex =>
      have hmem : uniqueKey cfg rt row ∈ st.store.map Prod.fst := lookupStore_mem_of_some hl
      simp only [hl]
      cases hgt : tsGt (rowTs rt row) (rowTs rt ex) <;>
        simp [hgt, insertKey, hmem, map_fst_setStore_of_some row hl]
  · rw [if_neg hp, if_neg hp]

theorem mem_step_store {cfg : Config} {rt : JSRuntime} {st : State} {row : Row}
    {p : String × Row} (h : p ∈ (step cfg rt st row).store) :
    p ∈ st.store ∨ (passesFilters cfg row = true ∧ p = (uniqueKey cfg rt row, row)) := by
  rw [step_eq] at h
  by_cases hp : passesFilters cfg row
  · rw [if_pos hp] at h
    simp only [stepKeyed] at h
    cases hl : lookupStore st.store (uniqueKey cfg rt row) with
    | none =>
      rw [hl] at h
      simp only at h
      rcases mem_setStore h with h2 | h2
      · exact Or.inr ⟨hp, h2⟩
      · exact Or.inl h2
    | some ex =>
      rw [hl] at h
      simp only at h
      cases hgt : tsGt (rowTs rt row) (rowTs rt ex) <;> rw [hgt] at h <;> simp only [if_true, if_false, Bool.false_eq_true] at h
      · exact Or.inl h
      · rcases mem_setStore h with h2 | h2
        · exact Or.inr ⟨hp, h2⟩
        · exact Or.inl h2
  · rw [if_neg hp] at h
    exact Or.inl h

theorem foldl_store_fst (cfg : Config) (rt : JSRuntime) :
    ∀ (rows : List Row) (st : State),
      ((rows.foldl (step cfg rt) st).store.map Prod.fst) =
        rows.foldl
          (fun ks r => if passesFilters cfg r then insertKey ks (uniqueKey cfg rt r) else ks)
          (st.store.map Prod.fst) := by
  intro rows
  induction rows with
  | nil => intro st; rfl
  | cons r rest ih =>
    intro st
    simp only [List.foldl_cons]
    rw [ih, step_store_fst]

theorem processRows_store_fst (cfg : Config) (rt : JSRuntime) (rows : List Row) :
    (processRows cfg rt rows).store.map Prod.fst = firstKeys cfg rt rows := by
  have h := foldl_store_fst cfg rt rows initState
  simpa [processRows, firstKeys, initState] using h

theorem insertKey_nodup {ks : List String} (h : ks.Nodup) (k : String) :
    (insertKey ks k).Nodup := by
  unfold insertKey
  by_cases hk : k ∈ ks
  · simp [hk, h]
  · simp [hk, List.nodup_append, h, List.disjoint_singleton]

theorem foldl_keys_nodup (cfg : Config) (rt : JSRuntime) :
    ∀ (rows : List Row) (ks : List String), ks.Nodup →
      (rows.foldl
        (fun ks r => if passesFilters cfg r then insertKey ks (uniqueKey cfg rt r) else ks)
        ks).Nodup := by
  intro rows
  induction rows with
  | nil => intro ks h; exact h
  | cons r rest ih =>
    intro ks h
    simp only [List.foldl_cons]
    apply ih
    by_cases hp : passesFilters cfg r
    · simp only [hp, if_true]
      exact insertKey_nodup h _
    · simpa [hp] using h

theorem firstKeys_nodup (cfg : Config) (rt : JSRuntime) (rows : List Row) :
    (firstKeys cfg rt rows).Nodup :=
  foldl_keys_nodup cfg rt rows [] List.nodup_nil

theorem foldl_store_pred (cfg : Config) (rt : JSRuntime) (P : String × Row → Prop) :
    ∀ (rows : List Row) (st : State),
      (∀ p ∈ st.store, P p) →
      (∀ r ∈ rows, passesFilters cfg r = true → P (uniqueKey cfg rt r, r)) →
      ∀ p ∈ (rows.foldl (step cfg rt) st).store, P p := by
  intro rows
  induction rows with
  | nil => intro st h1 _ p hp; exact h1 p hp
  | cons r rest ih =>
    intro st h1 h2 p hp
    simp only [List.foldl_cons] at hp
    refine ih (step cfg rt st r) ?_ ?_ p hp
    · intro q hq
      rcases mem_step_store hq with h | ⟨hpass, hq2⟩
      · exact h1 q h
      · rw [hq2]
        exact h2 r (by simp) hpass
    · intro q hq hqp
      exact h2 q (by simp [hq]) hqp

theorem foldl_on_clean (cfg : Config) (rt : JSRuntime) :
    ∀ (l : List (String × Row)) (st : State),
      (∀ p ∈ l, passesFilters cfg p.2 = true ∧ uniqueKey cfg rt p.2 = p.1) →
      (∀ p ∈ l, lookupStore st.store p.1 = none) →
      ((l.map Prod.fst).Nodup) →
      (l.map Prod.snd).foldl (step cfg rt) st = { store := st.store ++ l, dups := st.dups } := by
  intro l
  induction l with
  | nil => intro st _ _ _; simp
  | cons p rest ih =>
    obtain ⟨k, r⟩ := p
    intro st hinv hnew hnd
    simp only [List.map_cons, List.foldl_cons]
    have hpass : passesFilters cfg r = true := (hinv (k, r) (by simp)).1
    have hkey : uniqueKey cfg rt r = k := (hinv (k, r) (by simp)).2
    have hlk : lookupStore st.store k = none := hnew (k, r) (by simp)
    have hstep : step cfg rt st r = { store := st.store ++ [(k, r)], dups := st.dups } := by
      rw [step_eq, if_pos hpass]
      simp only [stepKeyed, hkey, hlk]
      rw [setStore_of_lookup_none r hlk]
    rw [hstep]
    have hnd2 : (rest.map Prod.fst).Nodup := (List.nodup_cons.mp (by simpa using hnd)).2
    have hknotin : k ∉ rest.map Prod.fst := (List.nodup_cons.mp (by simpa using hnd)).1
    rw [ih { store := st.store ++ [(k, r)], dups := st.dups }
      (fun q hq => hinv q (by simp [hq]))
      (fun q hq => by
        have hq1 : lookupStore st.store q.1 = none := hnew q (by simp [hq])
        have hqk : q.1 ≠ k := by
          intro hcontra
          exact hknotin (hcontra ▸ (List.mem_map.mpr ⟨q, hq, rfl⟩))
        rw [lookupStore_append_none hq1]
        simp [lookupStore, hqk, Ne.symm hqk])
      hnd2]
    simp

theorem sep_split :
    ∀ (u1 u2 s1 s2 : List Char), ('|' ∉ u1) → ('|' ∉ u2) →
      u1 ++ '|' :: s1 = u2 ++ '|' :: s2 → u1 = u2 ∧ s1 = s2 := by
  intro u1
  induction u1 with
  | nil =>
    intro u2 s1 s2 _ h2 heq
    cases u2 with
    | nil => simpa using heq
    | cons c u2t =>
      simp only [List.nil_append, List.cons_append, List.cons.injEq] at heq
      have hmem : '|' ∈ c :: u2t := by
        rw [← heq.1]
        exact List.mem_cons_self '|' u2t
      exact absurd hmem h2
  | cons c u1t ih =>
    intro u2 s1 s2 h1 h2 heq
    cases u2 with
    | nil =>
      simp only [List.nil_append, List.cons_append, List.cons.injEq] at heq
      have hmem : '|' ∈ c :: u1t := by
        rw [heq.1]
        exact List.mem_cons_self '|' u1t
      exact absurd hmem h1
    | cons d u2t =>
      simp only [List.cons_append, List.cons.injEq] at heq
      obtain ⟨hcd, heq2⟩ := heq
      have h1t : '|' ∉ u1t := fun hm => h1 (List.mem_cons_of_mem c hm)
      have h2t : '|' ∉ u2t := fun hm => h2 (List.mem_cons_of_mem d hm)
      obtain ⟨hu, hs⟩ := ih u2t s1 s2 h1t h2t heq2
      exact ⟨by rw [hcd, hu], hs⟩

theorem key_data (cfg : Config) (rt : JSRuntime) (row : Row) :
    (uniqueKey cfg rt row).data =
      (usernamePart cfg row).data ++ '|' :: (sitePart cfg rt row).data := by
  simp [uniqueKey, String.data_append]

/-! ## Concrete fixtures used by witnesses and counterexamples -/

/-- Build a row from the six named columns, with no extra columns. -/
def rowMk (u url nm pw mt ct : Option String) : Row :=
  { username := u, url := url, name := nm, password := pw, modifyTime := mt,
    createTime := ct, extra := [] }

/-- All options off. -/
def cfg0 : Config :=
  { normalizeUrl := false, lowercaseUsernames := false, ignoreEmptyPasswords := false,
    requireModifyTime := false }

/-- Empty-password filter on. -/
def cfgP : Config :=
  { normalizeUrl := false, lowercaseUsernames := false, ignoreEmptyPasswords := true,
    requireModifyTime := false }

/-- URL normalization on. -/
def cfgN : Config :=
  { normalizeUrl := true, lowercaseUsernames := false, ignoreEmptyPasswords := false,
    requireModifyTime := false }

/-- A tiny concrete stand-in for the JS runtime: two parseable date
strings, one parseable URL. -/
def rt0 : JSRuntime where
  parseDate := fun s => if s = "d1" then some 1 else if s = "d2" then some 2 else none
  parseURL := fun s => if s = "https://x.com" then some ("https:", "x.com") else none

/-- A first row: account a at site x.com, older timestamp. -/
def rowA1 : Row := rowMk (some "a") (some "x.com") none (some "pw") (some "d1") none

/-- A second row with the same key as rowA1 and a newer timestamp. -/
def rowA2 : Row := rowMk (some "a") (some "x.com") none (some "pw2") (some "d2") none

/-- A row with an unparseable modifyTime. -/
def rowBad : Row := rowMk (some "a") (some "x.com") none (some "pw3") (some "nonsense") none

/-- A row whose password is blank after trimming. -/
def rowNoPw : Row := rowMk (some "b") (some "y.com") none (some "   ") (some "d1") none

/-- A store already holding rowA1 under its key, as after consuming it. -/
def stA : State := { store := [("a|x.com", rowA1)], dups := 0 }

/-- Username containing the key separator, site without it. -/
def cexRow1 : Row := rowMk (some "a|b") (some "c") none none none none

/-- Username without the key separator, site containing it; collides with
cexRow1. -/
def cexRow2 : Row := rowMk (some "a") (some "b|c") none none none none

/-- A row whose url is present but empty, with a name to fall back to. -/
def cexUrlRow : Row := rowMk none (some "") (some "site") none none none

/-- A row whose modifyTime is present but empty, with a parseable
createTime. -/
def cexTimeRow : Row := rowMk none none none none (some "") (some "d1")

/-! ## Claim theorems -/

/-- C1: in the merge decision, a row whose key is absent is appended
as-is with the duplicate count unchanged; a row whose key is present
increments the duplicate count by exactly one, and the stored row becomes
the new row exactly when the new timestamp is strictly greater, the
existing row otherwise. -/
theorem merge_decision (cfg : Config) (rt : JSRuntime) (st : State) (row : Row)
    (hpass : passesFilters cfg row = true) :
    (lookupStore st.store (uniqueKey cfg rt row) = none →
      (step cfg rt st row).store = st.store ++ [(uniqueKey cfg rt row, row)] ∧
      (step cfg rt st row).dups = st.dups) ∧
    (∀ ex : Row, lookupStore st.store (uniqueKey cfg rt row) = some ex →
      (step cfg rt st row).dups = st.dups + 1 ∧
      (step cfg rt st row).store =
        (if tsGt (rowTs rt row) (rowTs rt ex) = true
         then setStore st.store (uniqueKey cfg rt row) row else st.store) ∧
      lookupStore (step cfg rt st row).store (uniqueKey cfg rt row) =
        some (if tsGt (rowTs rt row) (rowTs rt ex) = true then row else ex)) := by
  rw [step_eq, if_pos hpass]
  constructor
  · intro hl
    simp only [stepKeyed, hl]
    exact ⟨setStore_of_lookup_none row hl, by trivial⟩
  · intro ex hl
    simp only [stepKeyed, hl]
    cases hgt : tsGt (rowTs rt row) (rowTs rt ex) <;>
      simp [hgt, hl, lookupStore_setStore_self]

/-- C1 witness: rowA2 collides with the stored rowA1 and, being strictly
newer, replaces it while the duplicate count rises by one. -/
theorem merge_decision_witness :
    passesFilters cfg0 rowA2 = true ∧
    lookupStore stA.store (uniqueKey cfg0 rt0 rowA2) = some rowA1 ∧
    ((step cfg0 rt0 stA rowA2).dups = stA.dups + 1 ∧
      (step cfg0 rt0 stA rowA2).store =
        (if tsGt (rowTs rt0 rowA2) (rowTs rt0 rowA1) = true
         then setStore stA.store (uniqueKey cfg0 rt0 rowA2) rowA2 else stA.store) ∧
      lookupStore (step cfg0 rt0 stA rowA2).store (uniqueKey cfg0 rt0 rowA2) =
        some (if tsGt (rowTs rt0 rowA2) (rowTs rt0 rowA1) = true then rowA2 else rowA1)) :=
  ⟨by decide, by decide,
    (merge_decision cfg0 rt0 stA rowA2 (by decide)).2 rowA1 (by decide)⟩

/-- C2: getTimestamp sends absent and empty values to 0 and unparseable
strings to the NaN sentinel; the strict comparison is false whenever
either side is the sentinel, so in the merge decision the existing row is
kept (and the step function is total: no error is surfaced). -/
theorem timestamp_nan_policy (cfg : Config) (rt : JSRuntime) :
    getTimestamp rt none = some 0 ∧
    getTimestamp rt (some "") = some 0 ∧
    (∀ s : String, s ≠ "" → rt.parseDate s = none → getTimestamp rt (some s) = none) ∧
    (∀ a b : Option Int, a = none ∨ b = none → tsGt a b = false) ∧
    (∀ (st : State) (row ex : Row),
      passesFilters cfg row = true →
      lookupStore st.store (uniqueKey cfg rt row) = some ex →
      (rowTs rt row = none ∨ rowTs rt ex = none) →
      (step cfg rt st row).store = st.store ∧
      lookupStore (step cfg rt st row).store (uniqueKey cfg rt row) = some ex ∧
      (step cfg rt st row).dups = st.dups + 1) := by
  refine ⟨rfl, by simp [getTimestamp, falsy], ?_, ?_, ?_⟩
  · intro s hs hp
    simp [getTimestamp, falsy, hs, jsOrStr, jsOr, hp]
  · intro a b h
    rcases h with h | h <;> subst h
    · cases b <;> rfl
    · cases a <;> rfl
  · intro st row ex hpass hl hnan
    have hgt : tsGt (rowTs rt row) (rowTs rt ex) = false := by
      rcases hnan with h | h <;> rw [h]
      · cases hx : rowTs rt ex <;> rfl
      · cases hx : rowTs rt row <;> rfl
    rw [step_eq, if_pos hpass]
    simp [stepKeyed, hl, hgt]

/-- C2 witness: rowBad has an unparseable modifyTime, collides with the
stored rowA1, and the existing row is kept. -/
theorem timestamp_nan_policy_witness :
    ("nonsense" ≠ "" ∧ rt0.parseDate "nonsense" = none ∧
      getTimestamp rt0 (some "nonsense") = none) ∧
    tsGt (some 5) none = false ∧
    (passesFilters cfg0 rowBad = true ∧
      lookupStore stA.store (uniqueKey cfg0 rt0 rowBad) = some rowA1 ∧
      rowTs rt0 rowBad = none ∧
      (step cfg0 rt0 stA rowBad).store = stA.store ∧
      lookupStore (step cfg0 rt0 stA rowBad).store (uniqueKey cfg0 rt0 rowBad) =
        some rowA1 ∧
      (step cfg0 rt0 stA rowBad).dups = stA.dups + 1) :=
  ⟨⟨by decide, by decide,
      (timestamp_nan_policy cfg0 rt0).2.2.1 "nonsense" (by decide) (by decide)⟩,
   (timestamp_nan_policy cfg0 rt0).2.2.2.1 (some 5) none (Or.inr rfl),
   by
    have h := (timestamp_nan_policy cfg0 rt0).2.2.2.2 stA rowBad rowA1
      (by decide) (by decide) (Or.inl (by decide))
    exact ⟨by decide, by decide, by decide, h.1, h.2.1, h.2.2⟩⟩

/-- C3: the output is the store values in iteration order; the store keys
are exactly the accepted keys in first-insertion order, without
duplicates, and replacing the row stored under a present key never
changes the key sequence, hence never changes any position. -/
theorem output_order (cfg : Config) (rt : JSRuntime) (rows : List Row) :
    processOutput cfg rt rows = ((processRows cfg rt rows).store).map Prod.snd ∧
    ((processRows cfg rt rows).store).map Prod.fst = firstKeys cfg rt rows ∧
    (firstKeys cfg rt rows).Nodup ∧
    (∀ (s : Store) (k : String) (ex r : Row),
      lookupStore s k = some ex → (setStore s k r).map Prod.fst = s.map Prod.fst) :=
  ⟨rfl, processRows_store_fst cfg rt rows, firstKeys_nodup cfg rt rows,
   fun _ _ _ r h => map_fst_setStore_of_some r h⟩

/-- C3 witness: a concrete run whose key list is the first-insertion
order, and a concrete in-place replacement that keeps the key sequence. -/
theorem output_order_witness :
    lookupStore stA.store "a|x.com" = some rowA1 ∧
    (setStore stA.store "a|x.com" rowA2).map Prod.fst = stA.store.map Prod.fst ∧
    (processRows cfg0 rt0 [rowA1, rowA2, rowNoPw]).store.map Prod.fst =
      firstKeys cfg0 rt0 [rowA1, rowA2, rowNoPw] :=
  ⟨by decide,
   (output_order cfg0 rt0 []).2.2.2 stA.store "a|x.com" rowA1 rowA2 (by decide),
   (output_order cfg0 rt0 [rowA1, rowA2, rowNoPw]).2.1⟩

/-- C4: running process again on its own output with the same
configuration reproduces the output exactly and finds no duplicates. -/
theorem process_idempotent (cfg : Config) (rt : JSRuntime) (rows : List Row) :
    processOutput cfg rt (processOutput cfg rt rows) = processOutput cfg rt rows ∧
    duplicateCount cfg rt (processOutput cfg rt rows) = 0 := by
  have hinv : ∀ p ∈ (processRows cfg rt rows).store,
      passesFilters cfg p.2 = true ∧ uniqueKey cfg rt p.2 = p.1 := by
    refine foldl_store_pred cfg rt _ rows initState ?_ ?_
    · intro p hp
      simp [initState] at hp
    · intro r _ hp
      exact ⟨hp, rfl⟩
  have hnd : (((processRows cfg rt rows).store).map Prod.fst).Nodup := by
    rw [processRows_store_fst]
    exact firstKeys_nodup cfg rt rows
  have hrun := foldl_on_clean cfg rt ((processRows cfg rt rows).store) initState hinv
    (fun p _ => rfl) hnd
  have hrun2 : processRows cfg rt (processOutput cfg rt rows) =
      { store := (processRows cfg rt rows).store, dups := 0 } := by
    show ((processRows cfg rt rows).store.map Prod.snd).foldl (step cfg rt) initState = _
    rw [hrun]
    simp [initState]
  constructor
  · show ((processRows cfg rt (processOutput cfg rt rows)).store).map Prod.snd = _
    rw [hrun2]
    exact rfl
  · show (processRows cfg rt (processOutput cfg rt rows)).dups = 0
    rw [hrun2]

/-- C5 counterexample: two rows with different username parts and
different site parts receive the same AccountKey, because the separator
bar is not escaped in either part. -/
theorem key_collision_counterexample :
    uniqueKey cfg0 rt0 cexRow1 = uniqueKey cfg0 rt0 cexRow2 ∧
    usernamePart cfg0 cexRow1 ≠ usernamePart cfg0 cexRow2 ∧
    sitePart cfg0 rt0 cexRow1 ≠ sitePart cfg0 rt0 cexRow2 := by decide

/-- C5 amended: when neither username part contains the separator bar,
two rows receive the same AccountKey exactly when their username parts
and site parts are both equal. -/
theorem key_eq_iff (cfg : Config) (rt : JSRuntime) (r1 r2 : Row)
    (h1 : ('|' : Char) ∉ (usernamePart cfg r1).data)
    (h2 : ('|' : Char) ∉ (usernamePart cfg r2).data) :
    uniqueKey cfg rt r1 = uniqueKey cfg rt r2 ↔
      usernamePart cfg r1 = usernamePart cfg r2 ∧
      sitePart cfg rt r1 = sitePart cfg rt r2 := by
  constructor
  · intro h
    have hd := congrArg String.data h
    rw [key_data, key_data] at hd
    obtain ⟨hu, hs⟩ := sep_split _ _ _ _ h1 h2 hd
    exact ⟨String.ext hu, String.ext hs⟩
  · rintro ⟨e1, e2⟩
    rw [uniqueKey, uniqueKey, e1, e2]

/-- C5 witness: the separator-free hypothesis holds of two ordinary rows
and the equivalence is established for them. -/
theorem key_eq_iff_witness :
    (('|' : Char) ∉ (usernamePart cfg0 rowA1).data) ∧
    (('|' : Char) ∉ (usernamePart cfg0 rowA2).data) ∧
    (uniqueKey cfg0 rt0 rowA1 = uniqueKey cfg0 rt0 rowA2 ↔
      usernamePart cfg0 rowA1 = usernamePart cfg0 rowA2 ∧
      sitePart cfg0 rt0 rowA1 = sitePart cfg0 rt0 rowA2) :=
  ⟨by decide, by decide, key_eq_iff cfg0 rt0 rowA1 rowA2 (by decide) (by decide)⟩

/-- C6 counterexample: a row whose url is present but empty takes its
site part from name, not the empty string, because the source uses the
falsy fallback row.url || row.name. -/
theorem site_empty_url_counterexample :
    cexUrlRow.url = some "" ∧ cexUrlRow.name = some "site" ∧
    sitePart cfg0 rt0 cexUrlRow = "site" ∧ sitePart cfg0 rt0 cexUrlRow ≠ "" ∧
    siteValueSpec cexUrlRow = "" := by decide

/-- C6 amended: the site part falls back from url to name whenever url is
absent OR empty (falsy), is empty when both are falsy, and is trimmed
when normalization is off and passed to the URL Normalizer when it is
on. -/
theorem site_fallback (cfg : Config) (rt : JSRuntime) (row : Row) :
    (falsy row.url = true →
      sitePart cfg rt row = sitePart cfg rt { row with url := none }) ∧
    (falsy row.url = false → jsOr row.url row.name = row.url) ∧
    (falsy row.url = true → falsy row.name = true → sitePart cfg rt row = "") ∧
    (cfg.normalizeUrl = false →
      sitePart cfg rt row = jsTrim (jsOrStr (jsOr row.url row.name) "")) ∧
    (cfg.normalizeUrl = true →
      sitePart cfg rt row = normalizeUrl rt (jsOr row.url row.name)) := by
  refine ⟨?_, ?_, ?_, ?_, ?_⟩
  · intro h
    cases hu : row.url with
    | none => simp [sitePart, jsOr, falsy, hu]
    | some s =>
      rw [hu] at h
      have hs : s = "" := by simpa [falsy] using h
      subst hs
      simp [sitePart, jsOr, falsy, hu]
  · intro h
    simp [jsOr, h]
  · intro h1 h2
    have hj : jsOr row.url row.name = row.name := by simp [jsOr, h1]
    have hj2 : jsOrStr (jsOr row.url row.name) "" = "" := by
      rw [hj]
      simp [jsOrStr, jsOr, h2]
    cases hn : cfg.normalizeUrl
    · simp [sitePart, hn, hj2]
      decide
    · simp [sitePart, hn, hj, normalizeUrl, h2]
  · intro h
    simp [sitePart, h]
  · intro h
    simp [sitePart, h]

/-- C6 witness: the empty-url row behaves exactly as if its url column
were absent. -/
theorem site_fallback_witness :
    falsy cexUrlRow.url = true ∧
    sitePart cfg0 rt0 cexUrlRow = sitePart cfg0 rt0 { cexUrlRow with url := none } :=
  ⟨by decide, (site_fallback cfg0 rt0 cexUrlRow).1 (by decide)⟩

/-- C7 counterexample: a row whose modifyTime is present but empty takes
its comparison timestamp from createTime, not 0, because the source uses
the falsy fallback row.modifyTime || row.createTime. -/
theorem modifytime_empty_counterexample :
    cexTimeRow.modifyTime = some "" ∧ cexTimeRow.createTime = some "d1" ∧
    rowTs rt0 cexTimeRow = some 1 ∧ rowTs rt0 cexTimeRow ≠ some 0 ∧
    rowTsSpec rt0 cexTimeRow = some 0 := by decide

/-- C7 amended: the comparison timestamp comes from modifyTime when that
is non-falsy and from createTime whenever modifyTime is absent OR empty;
in particular an empty modifyTime uses createTime. -/
theorem rowts_fallback (rt : JSRuntime) (row : Row) :
    (falsy row.modifyTime = true → rowTs rt row = getTimestamp rt row.createTime) ∧
    (falsy row.modifyTime = false → rowTs rt row = getTimestamp rt row.modifyTime) ∧
    (row.modifyTime = some "" → rowTs rt row = getTimestamp rt row.createTime) := by
  refine ⟨?_, ?_, ?_⟩ <;> intro h
  · simp [rowTs, jsOr, h]
  · simp [rowTs, jsOr, h]
  · simp [rowTs, jsOr, falsy, h]

/-- C7 witness: the empty-modifyTime row takes its timestamp from its
createTime. -/
theorem rowts_fallback_witness :
    cexTimeRow.modifyTime = some "" ∧
    rowTs rt0 cexTimeRow = getTimestamp rt0 cexTimeRow.createTime :=
  ⟨by decide, (rowts_fallback rt0 cexTimeRow).2.2 (by decide)⟩

/-- C8: a row discarded by the empty-password filter or by the
missing-modifyTime filter leaves the state untouched, so removing it from
the stream changes neither the output nor the duplicate count. -/
theorem filter_exclusivity (cfg : Config) (rt : JSRuntime) (rows1 rows2 : List Row)
    (row : Row)
    (h : (cfg.ignoreEmptyPasswords = true ∧ emptyPassword row = true) ∨
         (cfg.requireModifyTime = true ∧ falsy row.modifyTime = true)) :
    (∀ st : State, step cfg rt st row = st) ∧
    processRows cfg rt (rows1 ++ row :: rows2) = processRows cfg rt (rows1 ++ rows2) := by
  have hstep : ∀ st : State, step cfg rt st row = st := by
    intro st
    unfold step
    rcases h with ⟨h1, h2⟩ | ⟨h1, h2⟩
    · simp [h1, h2]
    · cases hc : (cfg.ignoreEmptyPasswords && emptyPassword row) <;> simp [hc, h1, h2]
  refine ⟨hstep, ?_⟩
  unfold processRows
  rw [List.foldl_append, List.foldl_append, List.foldl_cons, hstep]

/-- C8 witness: with the empty-password filter on, a blank-password row
in the middle of the stream changes nothing. -/
theorem filter_exclusivity_witness :
    (cfgP.ignoreEmptyPasswords = true ∧ emptyPassword rowNoPw = true) ∧
    processRows cfgP rt0 [rowA1, rowNoPw, rowA2] = processRows cfgP rt0 [rowA1, rowA2] :=
  ⟨⟨rfl, by decide⟩,
   (filter_exclusivity cfgP rt0 [rowA1] [rowA2] rowNoPw (Or.inl ⟨rfl, by decide⟩)).2⟩

/-- C9: the URL Normalizer sends falsy input to the empty string, feeds
the parser the raw value with https:// prepended exactly when it does not
start with http, returns protocol//host on success and the trimmed
lowercased raw value on failure. -/
theorem normalize_url_contract (rt : JSRuntime) :
    normalizeUrl rt none = "" ∧
    normalizeUrl rt (some "") = "" ∧
    (∀ s : String, s ≠ "" →
      (jsStartsWith s "http" = true → prepended s = s) ∧
      (jsStartsWith s "http" = false → prepended s = "https://" ++ s) ∧
      (∀ proto host : String, rt.parseURL (prepended s) = some (proto, host) →
        normalizeUrl rt (some s) = proto ++ "//" ++ host) ∧
      (rt.parseURL (prepended s) = none →
        normalizeUrl rt (some s) = jsToLower (jsTrim s))) := by
  refine ⟨rfl, by simp [normalizeUrl, falsy], ?_⟩
  intro s hs
  refine ⟨?_, ?_, ?_, ?_⟩
  · intro h
    simp [prepended, h]
  · intro h
    simp [prepended, h]
  · intro proto host h
    simp [normalizeUrl, falsy, hs, jsOrStr, jsOr, h]
  · intro h
    simp [normalizeUrl, falsy, hs, jsOrStr, jsOr, h]

/-- C9 witness: a bare host gets https:// prepended, parses, and comes
back as scheme//host. -/
theorem normalize_url_contract_witness :
    ("x.com" ≠ "" ∧ rt0.parseURL (prepended "x.com") = some ("https:", "x.com")) ∧
    normalizeUrl rt0 (some "x.com") = "https:" ++ "//" ++ "x.com" :=
  ⟨⟨by decide, by decide⟩,
   ((normalize_url_contract rt0).2.2 "x.com" (by decide)).2.2.1 "https:" "x.com"
     (by decide)⟩

/-- C10: every row of the output sequence is, field for field, a row of
the input stream; key normalization never modifies the stored row. -/
theorem output_subset_input (cfg : Config) (rt : JSRuntime) (rows : List Row) (r : Row)
    (h : r ∈ processOutput cfg rt rows) : r ∈ rows := by
  unfold processOutput at h
  rcases List.mem_map.mp h with ⟨p, hp, hpr⟩
  have hmem := foldl_store_pred cfg rt (fun q => q.2 ∈ rows) rows initState
    (by intro q hq; simp [initState] at hq) (fun q hq _ => hq) p hp
  rw [← hpr]
  exact hmem

/-- C10 witness: the surviving row of a concrete run is one of the input
rows, unmodified. -/
theorem output_subset_input_witness :
    rowA2 ∈ processOutput cfg0 rt0 [rowA1, rowA2] ∧ rowA2 ∈ [rowA1, rowA2] :=
  ⟨by decide, output_subset_input cfg0 rt0 [rowA1, rowA2] rowA2 (by decide)⟩

end PassClean
